import Mathlib

/-!
# Verification of `extract_frames` (slam_recorder)

Shallow embedding of `src/extract_frames.py`. The function is a linear
pipeline over an opened video container: create the output directory,
open the container, pick the first video stream, load an optional
start-time offset from a sidecar file, then decode frames one by one,
saving each as `frame_{i:06d}.jpg` and appending a row to
`frame_timestamps.csv`.

We model one invocation as a pure function from an environment (the
result of `av.open`, the stream's frames and time base, the state of the
sidecar file) to a trace of observable events (file writes, console
prints) plus an outcome (normal return or a propagated exception).
Timestamp arithmetic, performed by Python on 64-bit floats, is idealized
to exact rationals; the `%.6f` rendering is modelled by `fmt6` (rounding
to six decimal places; Python rounds the binary double half-to-even,
the idealization rounds the exact rational half-up — no claim here
depends on tie behaviour).
-/

namespace SlamRecorder

/-- A decoded video frame: its presentation timestamp (`frame.pts`, an
integer in stream-clock units, possibly `None`) and its pixel content,
abstracted as an identifier. -/
structure Frame where
  pts : Option ℤ
  image : Nat
deriving DecidableEq, Repr

/-- A video stream: its rational time base (`stream.time_base`) and the
sequence of frames that `container.decode(stream)` yields, in decode
order. -/
structure VideoStream where
  time_base : ℚ
  frames : List Frame
deriving DecidableEq, Repr

/-- An opened container: `container.streams.video`. -/
structure Container where
  videoStreams : List VideoStream
deriving DecidableEq, Repr

/-- The state of the sidecar file `video_start_time.txt` next to the
video: reading it either raises an OS-level error or yields its text. -/
inductive SidecarRead where
  | ioError
  | content (s : String)
deriving DecidableEq, Repr

/-- The environment of one invocation: whether the output folder already
exists, what `av.open(video_path)` does, and the sidecar file state
(`none` when the file is absent). -/
structure Env where
  outputExists : Bool
  openResult : Except String Container
  sidecar : Option SidecarRead

/-- Observable events of a run, in order: filesystem writes and console
prints. CSV rows carry the exact rational timestamp; the file content
renders it via `fmt6`. -/
inductive Event where
  | mkdir
  | printOpenError (msg : String)
  | printNoStream
  | printFoundOffset (v : ℚ)
  | printWarnParse
  | printWarnMissing
  | printProcessing
  | openCSV
  | csvHeader
  | csvRow (filename : String) (ts : ℚ)
  | saveImage (filename : String) (img : Nat)
  | printProgress (filename : String) (ts : ℚ)
  | printDone
deriving DecidableEq, Repr

/-- How the invocation ends: normal return, or an uncaught exception
propagating out (the only uncaught point the model reaches is the
sidecar read). -/
inductive Outcome where
  | ret
  | raised
deriving DecidableEq, Repr

/-! ## Decimal rendering (`f"{x:.6f}"` and `f"{i:06d}"`) -/

/-- The ASCII digit character for `d < 10`. -/
def digitChar (d : Nat) : Char := Char.ofNat (48 + d)

/-- Decimal digits of `n`, most significant first, prepended to `acc`;
structural in the fuel so that it kernel-reduces. -/
def natDecimalGo (fuel : Nat) (n : Nat) (acc : List Char) : List Char :=
  match fuel with
  | 0 => acc
  | fuel + 1 =>
    if n < 10 then digitChar n :: acc
    else natDecimalGo fuel (n / 10) (digitChar (n % 10) :: acc)

/-- Decimal rendering of a natural number. -/
def natDecimal (n : Nat) : String := String.mk (natDecimalGo (n + 1) n [])

/-- `f"{i:06d}"`: zero-pad the decimal rendering to at least 6 chars. -/
def pad6 (i : Nat) : String :=
  String.mk (List.replicate (6 - (natDecimalGo (i + 1) i []).length) '0'
    ++ natDecimalGo (i + 1) i [])

/-- The image filename of frame index `i`: `f"frame_{i:06d}.jpg"`. -/
def frameName (i : Nat) : String := "frame_" ++ pad6 i ++ ".jpg"

/-- The integer nearest `q * 10^6` (half rounded up; the idealization of
rounding the 64-bit float to six decimal places). -/
def round6 (q : ℚ) : ℤ := Rat.floor (q * 1000000 + 1/2)

/-- Exactly six decimal digits: the fractional block of `f"{x:.6f}"`. -/
def frac6 (n : Nat) : String :=
  String.mk [digitChar (n / 100000 % 10), digitChar (n / 10000 % 10),
    digitChar (n / 1000 % 10), digitChar (n / 100 % 10),
    digitChar (n / 10 % 10), digitChar (n % 10)]

/-- `f"{q:.6f}"`: sign, integer part, `.`, six fractional digits. -/
def fmt6 (q : ℚ) : String :=
  (if round6 q < 0 then "-" else "")
    ++ natDecimal ((round6 q).natAbs / 1000000) ++ "."
    ++ frac6 ((round6 q).natAbs % 1000000)

/-- `True` iff `s` has exactly one `.` with exactly six characters after
it, all decimal digits: "rendered with exactly 6 digits after the
decimal point". -/
def sixDecimals (s : String) : Bool :=
  s.toList.count '.' == 1
    && ((s.toList.dropWhile (fun c => !(c == '.'))).drop 1).length == 6
    && ((s.toList.dropWhile (fun c => !(c == '.'))).drop 1).all Char.isDigit

/-! ## The pipeline -/

/-- `if not os.path.exists(output_folder): os.makedirs(output_folder)`. -/
def mkdirEvents (outputExists : Bool) : List Event :=
  if outputExists then [] else [Event.mkdir]

/-- Lines 47–56: determine `start_offset`. `parseFloat` stands for
Python's `float` builtin on the stripped file content (`Option`-valued:
`none` models a `ValueError`). An OS error raised by `open`/`read` is
not caught (`except ValueError` only) and propagates: `Except.error`. -/
def loadStartOffset (parseFloat : String → Option ℚ) :
    Option SidecarRead → Except Unit (List Event × ℚ)
  | none => .ok ([Event.printWarnMissing], 0)
  | some SidecarRead.ioError => .error ()
  | some (SidecarRead.content s) =>
    match parseFloat s.trim with
    | some v => .ok ([Event.printFoundOffset v], v)
    | none => .ok ([Event.printWarnParse], 0)

/-- The loop body for `for i, frame in enumerate(container.decode(stream))`
at index `i`: skip when `frame.pts is None`; otherwise save the image,
append the CSV row, and print progress when `i % 50 == 0`. -/
def frameChunk (tb off : ℚ) (i : Nat) (f : Frame) : List Event :=
  match f.pts with
  | none => []
  | some p =>
    [Event.saveImage (frameName i) f.image,
     Event.csvRow (frameName i) (p * tb + off)]
      ++ (if i % 50 = 0 then [Event.printProgress (frameName i) (p * tb + off)] else [])

/-- The decode loop from enumeration index `i` on. -/
def processFrom (tb off : ℚ) : Nat → List Frame → List Event
  | _, [] => []
  | i, f :: rest => frameChunk tb off i f ++ processFrom tb off (i + 1) rest

/-- The whole of `extract_frames(video_path, output_folder)`: the event
trace it produces and how it ends. -/
def extract_frames (parseFloat : String → Option ℚ) (env : Env) :
    List Event × Outcome :=
  let mk := mkdirEvents env.outputExists
  match env.openResult with
  | .error msg => (mk ++ [Event.printOpenError msg], Outcome.ret)
  | .ok container =>
    match container.videoStreams with
    | [] => (mk ++ [Event.printNoStream], Outcome.ret)
    | stream :: _ =>
      match loadStartOffset parseFloat env.sidecar with
      | .error _ => (mk, Outcome.raised)
      | .ok (offEvs, off) =>
        (mk ++ offEvs
            ++ [Event.printProcessing, Event.openCSV, Event.csvHeader]
            ++ processFrom stream.time_base off 0 stream.frames
            ++ [Event.printDone],
         Outcome.ret)

/-! ## Filesystem model

Only two kinds of files are written into the output folder: image files
(keyed by name) and the single CSV file `frame_timestamps.csv`, whose
content is a list of rows, each a list of fields. -/

/-- The files of the output folder: image contents by filename, and the
CSV file (`none` when it does not exist). -/
structure FileMap where
  images : String → Option Nat
  csv : Option (List (List String))

/-- The empty output folder. -/
def FileMap.empty : FileMap := ⟨fun _ => none, none⟩

/-- The CSV header row `["filename", "timestamp"]`. -/
def headerRow : List String := ["filename", "timestamp"]

/-- Apply one event to the output folder. `openCSV` truncates
(`mode='w'`); a row append reads only the current CSV content. -/
def applyEvent (fs : FileMap) : Event → FileMap
  | Event.saveImage name img =>
    { fs with images := fun n => if n = name then some img else fs.images n }
  | Event.openCSV => { fs with csv := some [] }
  | Event.csvHeader => { fs with csv := some ((fs.csv.getD []) ++ [headerRow]) }
  | Event.csvRow name ts =>
    { fs with csv := some ((fs.csv.getD []) ++ [[name, fmt6 ts]]) }
  | _ => fs

/-- Apply a trace of events to the output folder, in order. -/
def applyEvents (fs : FileMap) (evs : List Event) : FileMap :=
  evs.foldl applyEvent fs

/-! ## Derived observables of a trace -/

/-- The image files written by a trace, in order. -/
def imageWrites (evs : List Event) : List (String × Nat) :=
  evs.filterMap fun e =>
    match e with
    | Event.saveImage n img => some (n, img)
    | _ => none

/-- The image filenames written by a trace, in order. -/
def imageNames (evs : List Event) : List String :=
  (imageWrites evs).map Prod.fst

/-- The CSV data rows (excluding the header) appended by a trace, with
the exact rational timestamp. -/
def dataRows (evs : List Event) : List (String × ℚ) :=
  evs.filterMap fun e =>
    match e with
    | Event.csvRow n ts => some (n, ts)
    | _ => none

/-- The `(filename, timestamp)` rows the loop writes from index `i` on:
one row per frame with a non-null `pts`, timestamp `pts * tb + off`. -/
def writtenRows (tb off : ℚ) : Nat → List Frame → List (String × ℚ)
  | _, [] => []
  | i, f :: rest =>
    match f.pts with
    | none => writtenRows tb off (i + 1) rest
    | some p => (frameName i, p * tb + off) :: writtenRows tb off (i + 1) rest

/-- The rendered rows a trace appends to the CSV file, in order. -/
def csvAppends (evs : List Event) : List (List String) :=
  evs.filterMap fun e =>
    match e with
    | Event.csvHeader => some headerRow
    | Event.csvRow n ts => some [n, fmt6 ts]
    | _ => none

/-- `True` when the event writes into the CSV file. -/
def touchesCsv : Event → Bool
  | Event.openCSV => true
  | Event.csvHeader => true
  | Event.csvRow _ _ => true
  | _ => false

/-- `True` when the event writes any file of the output folder. -/
def writesFile : Event → Bool
  | Event.openCSV => true
  | Event.csvHeader => true
  | Event.csvRow _ _ => true
  | Event.saveImage _ _ => true
  | _ => false

/-! ## Trace lemmas -/

theorem dataRows_append (a b : List Event) :
    dataRows (a ++ b) = dataRows a ++ dataRows b := by
  simp [dataRows, List.filterMap_append]

theorem imageWrites_append (a b : List Event) :
    imageWrites (a ++ b) = imageWrites a ++ imageWrites b := by
  simp [imageWrites, List.filterMap_append]

theorem csvAppends_append (a b : List Event) :
    csvAppends (a ++ b) = csvAppends a ++ csvAppends b := by
  simp [csvAppends, List.filterMap_append]

theorem applyEvents_append (fs : FileMap) (a b : List Event) :
    applyEvents fs (a ++ b) = applyEvents (applyEvents fs a) b :=
  List.foldl_append ..

/-- Events that write no file leave the folder unchanged. -/
theorem applyEvents_neutral (evs : List Event)
    (h : ∀ e ∈ evs, writesFile e = false) :
    ∀ fs, applyEvents fs evs = fs := by
  induction evs with
  | nil => intro fs; rfl
  | cons e rest ih =>
    intro fs
    have he := h e (List.mem_cons_self ..)
    have hrest : ∀ e ∈ rest, writesFile e = false :=
      fun x hx => h x (List.mem_cons_of_mem _ hx)
    have : applyEvent fs e = fs := by
      cases e <;> simp_all [writesFile, applyEvent]
    simpa [applyEvents, List.foldl_cons, this] using ih hrest fs

/-- An image filename no event writes keeps its prior content. -/
theorem applyEvents_images_untouched (evs : List Event) (name : String)
    (h : name ∉ imageNames evs) :
    ∀ fs, (applyEvents fs evs).images name = fs.images name := by
  induction evs with
  | nil => intro fs; rfl
  | cons e rest ih =>
    intro fs
    have hrest : name ∉ imageNames rest := by
      intro hmem
      exact h (by
        simp only [imageNames, imageWrites, List.filterMap_cons] at *
        cases e <;> simp_all)
    have hstep : (applyEvent fs e).images name = fs.images name := by
      cases e with
      | saveImage n img =>
        have hne : name ≠ n := by
          intro rfl_eq
          exact h (by simp [imageNames, imageWrites, List.filterMap_cons, rfl_eq])
        simp [applyEvent, hne]
      | _ => simp [applyEvent]
    calc (applyEvents fs (e :: rest)).images name
        = (applyEvents (applyEvent fs e) rest).images name := rfl
      _ = (applyEvent fs e).images name := ih hrest _
      _ = fs.images name := hstep

/-- No event of the trace touches the CSV file: its content is kept. -/
theorem applyEvents_csv_untouched (evs : List Event)
    (h : ∀ e ∈ evs, touchesCsv e = false) :
    ∀ fs, (applyEvents fs evs).csv = fs.csv := by
  induction evs with
  | nil => intro fs; rfl
  | cons e rest ih =>
    intro fs
    have he := h e (List.mem_cons_self ..)
    have hrest : ∀ e ∈ rest, touchesCsv e = false :=
      fun x hx => h x (List.mem_cons_of_mem _ hx)
    have hstep : (applyEvent fs e).csv = fs.csv := by
      cases e <;> simp_all [touchesCsv, applyEvent]
    calc (applyEvents fs (e :: rest)).csv
        = (applyEvents (applyEvent fs e) rest).csv := rfl
      _ = (applyEvent fs e).csv := ih hrest _
      _ = fs.csv := hstep

/-- Along a trace that never re-opens the CSV file, the file content is
the prior rows followed by the rows the trace appends. -/
theorem applyEvents_csv_appends (evs : List Event)
    (h : ∀ e ∈ evs, e ≠ Event.openCSV) :
    ∀ fs rows, fs.csv = some rows →
      (applyEvents fs evs).csv = some (rows ++ csvAppends evs) := by
  induction evs with
  | nil => intro fs rows hfs; simpa [applyEvents, csvAppends] using hfs
  | cons e rest ih =>
    intro fs rows hfs
    have hrest : ∀ e ∈ rest, e ≠ Event.openCSV :=
      fun x hx => h x (List.mem_cons_of_mem _ hx)
    have he := h e (List.mem_cons_self ..)
    show (applyEvents (applyEvent fs e) rest).csv = _
    cases e
    case openCSV => exact absurd rfl he
    case csvHeader =>
      have := ih hrest (applyEvent fs Event.csvHeader) (rows ++ [headerRow])
        (by simp [applyEvent, hfs])
      simp [csvAppends, List.filterMap_cons, this]
    case csvRow n ts =>
      have := ih hrest (applyEvent fs (Event.csvRow n ts)) (rows ++ [[n, fmt6 ts]])
        (by simp [applyEvent, hfs])
      simp [csvAppends, List.filterMap_cons, this]
    all_goals
      rw [ih hrest _ rows (by simp [applyEvent, hfs])]
      simp [csvAppends, List.filterMap_cons]

/-! ## Loop characterization -/

/-- The loop never reopens or re-headers the CSV file. -/
theorem processFrom_no_reopen (tb off : ℚ) :
    ∀ i frames, ∀ e ∈ processFrom tb off i frames,
      e ≠ Event.openCSV ∧ e ≠ Event.csvHeader := by
  intro i frames
  induction frames generalizing i with
  | nil => intro e he; simp [processFrom] at he
  | cons f rest ih =>
    intro e he
    rw [processFrom, List.mem_append] at he
    rcases he with hc | hr
    · cases hp : f.pts with
      | none => simp [frameChunk, hp] at hc
      | some p =>
        by_cases h50 : i % 50 = 0 <;>
          (simp [frameChunk, hp, h50] at hc;
           rcases hc with h | h | h <;> simp_all)
    · exact ih (i + 1) e hr

/-- The CSV rows the loop emits are exactly `writtenRows`. -/
theorem dataRows_processFrom (tb off : ℚ) :
    ∀ i frames, dataRows (processFrom tb off i frames) = writtenRows tb off i frames := by
  intro i frames
  induction frames generalizing i with
  | nil => simp [processFrom, dataRows, writtenRows]
  | cons f rest ih =>
    rw [processFrom, dataRows_append, ih (i + 1)]
    cases hp : f.pts with
    | none => simp [frameChunk, hp, dataRows, writtenRows]
    | some p =>
      by_cases h50 : i % 50 = 0 <;>
        simp [frameChunk, hp, h50, dataRows, writtenRows, List.filterMap_cons]

/-- The image files the loop saves are exactly the written rows'
filenames, paired with the frames' pixel content, in the same order. -/
theorem imageNames_processFrom (tb off : ℚ) :
    ∀ i frames, imageNames (processFrom tb off i frames)
      = (writtenRows tb off i frames).map Prod.fst := by
  intro i frames
  induction frames generalizing i with
  | nil => simp [processFrom, imageNames, imageWrites, writtenRows]
  | cons f rest ih =>
    rw [processFrom]
    simp only [imageNames, imageWrites_append, List.map_append]
    rw [show (imageWrites (processFrom tb off (i+1) rest)).map Prod.fst
        = imageNames (processFrom tb off (i+1) rest) from rfl, ih (i + 1)]
    cases hp : f.pts with
    | none => simp [frameChunk, hp, imageWrites, writtenRows]
    | some p =>
      by_cases h50 : i % 50 = 0 <;>
        simp [frameChunk, hp, h50, imageWrites, writtenRows, List.filterMap_cons]

/-- The rendered CSV rows the loop appends: `writtenRows` through `fmt6`. -/
theorem csvAppends_processFrom (tb off : ℚ) :
    ∀ i frames, csvAppends (processFrom tb off i frames)
      = (writtenRows tb off i frames).map (fun r => [r.1, fmt6 r.2]) := by
  intro i frames
  induction frames generalizing i with
  | nil => simp [processFrom, csvAppends, writtenRows]
  | cons f rest ih =>
    rw [processFrom, csvAppends_append, ih (i + 1)]
    cases hp : f.pts with
    | none => simp [frameChunk, hp, csvAppends, writtenRows]
    | some p =>
      by_cases h50 : i % 50 = 0 <;>
        simp [frameChunk, hp, h50, csvAppends, writtenRows, List.filterMap_cons]

/-- A loop over frames that all lack a timestamp emits nothing. -/
theorem processFrom_all_none (tb off : ℚ) :
    ∀ i frames, (∀ f ∈ frames, f.pts = none) →
      processFrom tb off i frames = [] := by
  intro i frames
  induction frames generalizing i with
  | nil => intro _; rfl
  | cons f rest ih =>
    intro h
    rw [processFrom, ih (i + 1) (fun x hx => h x (List.mem_cons_of_mem _ hx))]
    simp [frameChunk, h f (List.mem_cons_self ..)]

/-- When every frame has a timestamp, the written filenames are exactly
the enumeration indices, in order and without gaps. -/
theorem writtenRows_all_some (tb off : ℚ) :
    ∀ i frames, (∀ f ∈ frames, f.pts ≠ none) →
      (writtenRows tb off i frames).map Prod.fst
        = (List.range' i frames.length).map frameName := by
  intro i frames
  induction frames generalizing i with
  | nil => intro _; rfl
  | cons f rest ih =>
    intro h
    cases hp : f.pts with
    | none => exact absurd hp (h f (List.mem_cons_self ..))
    | some p =>
      rw [writtenRows]
      simp only [hp, List.length_cons, List.range', List.map_cons]
      rw [ih (i + 1) (fun x hx => h x (List.mem_cons_of_mem _ hx))]

/-! ## Run decomposition -/

/-- The possible event lists of a successful offset load. -/
theorem loadStartOffset_shape (pf : String → Option ℚ)
    (sc : Option SidecarRead) (offEvs : List Event) (off : ℚ)
    (h : loadStartOffset pf sc = .ok (offEvs, off)) :
    offEvs = [Event.printWarnMissing] ∨ offEvs = [Event.printWarnParse]
      ∨ offEvs = [Event.printFoundOffset off] := by
  cases sc with
  | none =>
    simp only [loadStartOffset, Except.ok.injEq, Prod.mk.injEq] at h
    exact Or.inl h.1.symm
  | some sr =>
    cases sr with
    | ioError => simp [loadStartOffset] at h
    | content s =>
      rw [loadStartOffset] at h
      cases hp : pf s.trim with
      | none =>
        rw [hp] at h
        simp only [Except.ok.injEq, Prod.mk.injEq] at h
        exact Or.inr (Or.inl h.1.symm)
      | some v =>
        rw [hp] at h
        simp only [Except.ok.injEq, Prod.mk.injEq] at h
        right; right; rw [← h.1, h.2]

/-- A successful offset load prints; it writes no file. -/
theorem loadStartOffset_neutral (pf : String → Option ℚ)
    (sc : Option SidecarRead) (offEvs : List Event) (off : ℚ)
    (h : loadStartOffset pf sc = .ok (offEvs, off)) :
    ∀ e ∈ offEvs, writesFile e = false := by
  rcases loadStartOffset_shape pf sc offEvs off h with h' | h' | h' <;>
    (subst h'; intro e he; simp at he; subst he; rfl)

/-- The trace of a run that opens the container, finds a video stream,
and loads the offset without an OS error. -/
theorem extract_frames_ok (pf : String → Option ℚ) (env : Env)
    (c : Container) (stream : VideoStream) (rest : List VideoStream)
    (offEvs : List Event) (off : ℚ)
    (h1 : env.openResult = .ok c) (h2 : c.videoStreams = stream :: rest)
    (h3 : loadStartOffset pf env.sidecar = .ok (offEvs, off)) :
    extract_frames pf env =
      (mkdirEvents env.outputExists ++ offEvs
        ++ [Event.printProcessing, Event.openCSV, Event.csvHeader]
        ++ processFrom stream.time_base off 0 stream.frames
        ++ [Event.printDone],
       Outcome.ret) := by
  simp [extract_frames, h1, h2, h3]

/-- Creating the output directory writes no file into it. -/
theorem mkdirEvents_neutral (b : Bool) :
    ∀ e ∈ mkdirEvents b, writesFile e = false := by
  cases b with
  | true => intro e he; simp [mkdirEvents] at he
  | false => intro e he; simp [mkdirEvents] at he; subst he; rfl

theorem applyEvents_cons (fs : FileMap) (e : Event) (t : List Event) :
    applyEvents fs (e :: t) = applyEvents (applyEvent fs e) t := rfl

section RunObservables

variable (pf : String → Option ℚ) (env : Env)
  (c : Container) (stream : VideoStream) (rest : List VideoStream)
  (offEvs : List Event) (off : ℚ)

/-- The CSV data rows of a whole successful run are those of the loop. -/
theorem run_dataRows
    (h1 : env.openResult = .ok c) (h2 : c.videoStreams = stream :: rest)
    (h3 : loadStartOffset pf env.sidecar = .ok (offEvs, off)) :
    dataRows (extract_frames pf env).1
      = writtenRows stream.time_base off 0 stream.frames := by
  rw [extract_frames_ok pf env c stream rest offEvs off h1 h2 h3]
  simp only [dataRows_append]
  rw [dataRows_processFrom]
  rcases loadStartOffset_shape pf env.sidecar offEvs off h3 with h | h | h <;>
    (subst h; cases hb : env.outputExists <;>
      simp [mkdirEvents, dataRows, List.filterMap_cons])

/-- The image files of a whole successful run are those of the loop. -/
theorem run_imageNames
    (h1 : env.openResult = .ok c) (h2 : c.videoStreams = stream :: rest)
    (h3 : loadStartOffset pf env.sidecar = .ok (offEvs, off)) :
    imageNames (extract_frames pf env).1
      = (writtenRows stream.time_base off 0 stream.frames).map Prod.fst := by
  rw [extract_frames_ok pf env c stream rest offEvs off h1 h2 h3]
  simp only [imageNames, imageWrites_append, List.map_append]
  rw [show (imageWrites (processFrom stream.time_base off 0 stream.frames)).map Prod.fst
      = imageNames (processFrom stream.time_base off 0 stream.frames) from rfl,
    imageNames_processFrom]
  rcases loadStartOffset_shape pf env.sidecar offEvs off h3 with h | h | h <;>
    (subst h; cases hb : env.outputExists <;>
      simp [mkdirEvents, imageWrites, List.filterMap_cons])

/-- After a successful run, whatever the folder held before, the CSV
file holds exactly the header followed by the rendered written rows. -/
theorem run_csv_content
    (h1 : env.openResult = .ok c) (h2 : c.videoStreams = stream :: rest)
    (h3 : loadStartOffset pf env.sidecar = .ok (offEvs, off)) (fs : FileMap) :
    (applyEvents fs (extract_frames pf env).1).csv
      = some (headerRow :: (writtenRows stream.time_base off 0 stream.frames).map
          (fun r => [r.1, fmt6 r.2])) := by
  rw [extract_frames_ok pf env c stream rest offEvs off h1 h2 h3]
  have hassoc :
      mkdirEvents env.outputExists ++ offEvs
          ++ [Event.printProcessing, Event.openCSV, Event.csvHeader]
          ++ processFrom stream.time_base off 0 stream.frames
          ++ [Event.printDone]
        = mkdirEvents env.outputExists ++ (offEvs
          ++ (Event.printProcessing :: Event.openCSV :: Event.csvHeader ::
            (processFrom stream.time_base off 0 stream.frames ++ [Event.printDone]))) := by
    simp
  rw [hassoc, applyEvents_append,
    applyEvents_neutral _ (mkdirEvents_neutral env.outputExists) fs,
    applyEvents_append,
    applyEvents_neutral _ (loadStartOffset_neutral pf env.sidecar offEvs off h3) fs,
    applyEvents_cons, applyEvents_cons, applyEvents_cons]
  have hnoopen : ∀ e ∈ processFrom stream.time_base off 0 stream.frames
      ++ [Event.printDone], e ≠ Event.openCSV := by
    intro e he
    rw [List.mem_append] at he
    rcases he with h | h
    · exact (processFrom_no_reopen stream.time_base off 0 stream.frames e h).1
    · simp at h; subst h; simp
  rw [applyEvents_csv_appends _ hnoopen _ [headerRow]
    (by simp [applyEvent, headerRow])]
  rw [csvAppends_append, csvAppends_processFrom]
  simp [csvAppends]

end RunObservables

/-! ## The rendering is exactly six decimal digits -/

/-- A character of a decimal rendering: a digit, not a point. -/
def goodChar (c : Char) : Prop := (c == '.') = false ∧ c.isDigit = true

theorem goodChar_digitChar : ∀ d, d < 10 → goodChar (digitChar d) := by
  simp only [goodChar]; decide

theorem goodChar_natDecimalGo :
    ∀ fuel n acc, (∀ c ∈ acc, goodChar c) →
      ∀ c ∈ natDecimalGo fuel n acc, goodChar c := by
  intro fuel
  induction fuel with
  | zero => intro n acc hacc c hc; exact hacc c hc
  | succ fuel ih =>
    intro n acc hacc c hc
    rw [natDecimalGo] at hc
    by_cases h : n < 10
    · rw [if_pos h] at hc
      rcases List.mem_cons.mp hc with h' | h'
      · subst h'; exact goodChar_digitChar n h
      · exact hacc c h'
    · rw [if_neg h] at hc
      refine ih (n / 10) _ ?_ c hc
      intro x hx
      rcases List.mem_cons.mp hx with h' | h'
      · subst h'; exact goodChar_digitChar _ (Nat.mod_lt _ (by norm_num))
      · exact hacc x h'

theorem goodChar_natDecimal (n : Nat) : ∀ c ∈ (natDecimal n).toList, goodChar c := by
  intro c hc
  exact goodChar_natDecimalGo (n + 1) n [] (by simp) c hc

theorem goodChar_frac6 (n : Nat) : ∀ c ∈ (frac6 n).toList, goodChar c := by
  intro c hc
  have : (frac6 n).toList = [digitChar (n / 100000 % 10), digitChar (n / 10000 % 10),
      digitChar (n / 1000 % 10), digitChar (n / 100 % 10),
      digitChar (n / 10 % 10), digitChar (n % 10)] := rfl
  rw [this] at hc
  simp only [List.mem_cons, List.not_mem_nil, or_false] at hc
  rcases hc with h | h | h | h | h | h <;>
    (subst h; exact goodChar_digitChar _ (Nat.mod_lt _ (by norm_num)))

theorem frac6_length (n : Nat) : (frac6 n).toList.length = 6 := rfl

/-- `fmt6` always renders with exactly six digits after the decimal
point. -/
theorem sixDecimals_fmt6 (q : ℚ) : sixDecimals (fmt6 q) = true := by
  have hdata : (fmt6 q).toList
      = ((if round6 q < 0 then "-" else "").toList ++ (natDecimal ((round6 q).natAbs / 1000000)).toList)
        ++ ('.' :: (frac6 ((round6 q).natAbs % 1000000)).toList) := by
    show (fmt6 q).data = _
    rw [fmt6]
    simp only [String.data_append]
    simp [String.toList]
  set pre := (if round6 q < 0 then "-" else "").toList
    ++ (natDecimal ((round6 q).natAbs / 1000000)).toList with hpre
  set frac := (frac6 ((round6 q).natAbs % 1000000)).toList with hfrac
  have hpreGood : ∀ c ∈ pre, (c == '.') = false := by
    intro c hc
    rw [hpre, List.mem_append] at hc
    rcases hc with h | h
    · by_cases hneg : round6 q < 0
      · simp [hneg] at h; subst h; decide
      · simp [hneg] at h
    · exact (goodChar_natDecimal _ c h).1
  have hfracGood : ∀ c ∈ frac, goodChar c := fun c hc => goodChar_frac6 _ c hc
  rw [sixDecimals, hdata]
  have hcount : (pre ++ ('.' :: frac)).count '.' = 1 := by
    rw [List.count_append]
    have h1 : pre.count '.' = 0 := by
      rw [List.count_eq_zero]
      intro hmem
      have := hpreGood '.' hmem
      simp at this
    have h2 : ('.' :: frac).count '.' = 1 := by
      rw [List.count_cons]
      have : frac.count '.' = 0 := by
        rw [List.count_eq_zero]
        intro hmem
        have := (hfracGood '.' hmem).1
        simp at this
      simp [this]
    omega
  have hdrop : (pre ++ ('.' :: frac)).dropWhile (fun c => !(c == '.')) = '.' :: frac := by
    rw [List.dropWhile_append_of_pos (by intro a ha; simp [hpreGood a ha])]
    rw [List.dropWhile_cons]
    simp
  rw [hcount, hdrop]
  have hlen : frac.length = 6 := by rw [hfrac]; exact frac6_length _
  have hall : frac.all Char.isDigit = true := by
    rw [List.all_eq_true]; intro c hc; exact (hfracGood c hc).2
  simp [hlen, hall]

/-! ## Row and image counts along prefixes -/

/-- The number of CSV data rows a trace appends. -/
def rowCount (evs : List Event) : Nat := (dataRows evs).length

/-- The number of image files a trace writes. -/
def imgCount (evs : List Event) : Nat := (imageWrites evs).length

theorem rowCount_take_append (a b : List Event) (n : Nat) :
    rowCount ((a ++ b).take n)
      = rowCount (a.take n) + rowCount (b.take (n - a.length)) := by
  rw [List.take_append_eq_append_take, rowCount, dataRows_append,
    List.length_append]
  rfl

theorem imgCount_take_append (a b : List Event) (n : Nat) :
    imgCount ((a ++ b).take n)
      = imgCount (a.take n) + imgCount (b.take (n - a.length)) := by
  rw [List.take_append_eq_append_take, imgCount, imageWrites_append,
    List.length_append]
  rfl

/-- A trace with no data rows has none along any prefix. -/
theorem rowCount_take_of_none (evs : List Event) (h : dataRows evs = [])
    (n : Nat) : rowCount (evs.take n) = 0 := by
  rw [rowCount, List.length_eq_zero]
  rw [dataRows, List.filterMap_eq_nil_iff] at h ⊢
  intro a ha
  exact h a (List.take_subset n evs ha)

/-- Within one frame's chunk of events, the image save precedes the CSV
row: along every prefix, rows never outnumber images. -/
theorem frameChunk_take_le (tb off : ℚ) (i : Nat) (f : Frame) (n : Nat) :
    rowCount ((frameChunk tb off i f).take n)
      ≤ imgCount ((frameChunk tb off i f).take n) := by
  cases hp : f.pts with
  | none => simp [frameChunk, hp, rowCount, imgCount, dataRows, imageWrites]
  | some p =>
    by_cases h50 : i % 50 = 0 <;>
      (rcases n with _ | _ | _ | n <;>
        simp [frameChunk, hp, h50, rowCount, imgCount, dataRows, imageWrites,
          List.filterMap_cons, List.take_succ_cons, List.take_nil])

/-- Along every prefix of the loop's trace, the number of CSV rows never
exceeds the number of saved images. -/
theorem processFrom_take_le (tb off : ℚ) :
    ∀ i frames n, rowCount ((processFrom tb off i frames).take n)
      ≤ imgCount ((processFrom tb off i frames).take n) := by
  intro i frames
  induction frames generalizing i with
  | nil => intro n; simp [processFrom, rowCount, imgCount, dataRows, imageWrites]
  | cons f rest ih =>
    intro n
    rw [processFrom, rowCount_take_append, imgCount_take_append]
    exact Nat.add_le_add (frameChunk_take_le tb off i f n) (ih (i + 1) _)

/-! ## Timestamp bounds and degenerate loops -/

/-- Every timestamp the loop writes is at least the start offset, as
long as no frame carries a negative `pts` and the time base is
non-negative. -/
theorem writtenRows_offset_le (tb off : ℚ) (htb : 0 ≤ tb) :
    ∀ i frames, (∀ f ∈ frames, ∀ p, f.pts = some p → 0 ≤ p) →
      ∀ r ∈ writtenRows tb off i frames, off ≤ r.2 := by
  intro i frames
  induction frames generalizing i with
  | nil => intro _ r hr; simp [writtenRows] at hr
  | cons f rest ih =>
    intro h r hr
    rw [writtenRows] at hr
    cases hp : f.pts with
    | none =>
      rw [hp] at hr
      exact ih (i + 1) (fun x hx => h x (List.mem_cons_of_mem _ hx)) r hr
    | some p =>
      rw [hp] at hr
      rcases List.mem_cons.mp hr with h' | h'
      · subst h'
        have hp0 : (0 : ℚ) ≤ (p : ℚ) := by
          exact_mod_cast h f (List.mem_cons_self ..) p hp
        have : (0 : ℚ) ≤ (p : ℚ) * tb := mul_nonneg hp0 htb
        simpa using this
      · exact ih (i + 1) (fun x hx => h x (List.mem_cons_of_mem _ hx)) r h'

/-- Frames that all lack a timestamp produce no rows. -/
theorem writtenRows_all_none (tb off : ℚ) :
    ∀ i frames, (∀ f ∈ frames, f.pts = none) →
      writtenRows tb off i frames = [] := by
  intro i frames
  induction frames generalizing i with
  | nil => intro _; rfl
  | cons f rest ih =>
    intro h
    rw [writtenRows]
    rw [h f (List.mem_cons_self ..)]
    exact ih (i + 1) (fun x hx => h x (List.mem_cons_of_mem _ hx))

/-- The only event directory creation can produce. -/
theorem mem_mkdirEvents (b : Bool) (e : Event) (h : e ∈ mkdirEvents b) :
    e = Event.mkdir := by
  cases b with
  | true => simp [mkdirEvents] at h
  | false => simpa [mkdirEvents] using h

/-! ## Concrete inputs for witnesses -/

/-- A parse function for runs whose sidecar is absent (never consulted). -/
def pfNone : String → Option ℚ := fun _ => none

/-- Python `float` restricted to the one literal the witnesses use. -/
def pf1000 : String → Option ℚ := fun s => if s = "1000.0" then some 1000 else none

/-- A stream of two frames with timestamps 0 and 1 tick at 1/30 s/tick. -/
def streamA : VideoStream := ⟨mkRat 1 30, [⟨some 0, 7⟩, ⟨some 1, 8⟩]⟩

/-- A run over `streamA` with no sidecar file. -/
def envA : Env :=
  { outputExists := false
  , openResult := Except.ok ⟨[streamA]⟩
  , sidecar := none }

/-- A run whose container fails to open. -/
def envOpenErr : Env :=
  { outputExists := false
  , openResult := Except.error "boom"
  , sidecar := none }

/-- A run whose container opens but has no video stream. -/
def envNoStream : Env :=
  { outputExists := true
  , openResult := Except.ok ⟨[]⟩
  , sidecar := none }

/-- A run whose sidecar file exists but raises on read. -/
def envIoErr : Env :=
  { outputExists := true
  , openResult := Except.ok ⟨[streamA]⟩
  , sidecar := some SidecarRead.ioError }

/-- A run over one frame whose presentation timestamp is negative. -/
def envNegPts : Env :=
  { outputExists := false
  , openResult := Except.ok ⟨[⟨mkRat 1 30, [⟨some (-1), 0⟩]⟩]⟩
  , sidecar := none }

/-- A run over one frame with a null presentation timestamp. -/
def envAllNone : Env :=
  { outputExists := false
  , openResult := Except.ok ⟨[⟨mkRat 1 30, [⟨none, 3⟩]⟩]⟩
  , sidecar := none }

/-- A folder already holding a stale image from an earlier, longer run. -/
def fsStale : FileMap :=
  ⟨fun n => if n = "frame_000099.jpg" then some 42 else none, none⟩

/-! ## Claims -/

/-- **C3**: a decoded frame whose presentation timestamp is null is
skipped entirely — its chunk of events is empty, so no image, no CSV
row and no log line — yet the loop continues at index `i + 1`: the
enumeration index is consumed by the skipped frame, and the remaining
rows and image files stay in lockstep on the indices actually written. -/
theorem claim_C3_null_pts_skipped_consumes_index (tb off : ℚ) (i : Nat)
    (f : Frame) (rest : List Frame) (h : f.pts = none) :
    frameChunk tb off i f = []
    ∧ processFrom tb off i (f :: rest) = processFrom tb off (i + 1) rest
    ∧ dataRows (processFrom tb off i (f :: rest)) = writtenRows tb off (i + 1) rest
    ∧ imageNames (processFrom tb off i (f :: rest))
        = (writtenRows tb off (i + 1) rest).map Prod.fst := by
  have hc : frameChunk tb off i f = [] := by simp [frameChunk, h]
  have hp : processFrom tb off i (f :: rest) = processFrom tb off (i + 1) rest := by
    rw [processFrom, hc, List.nil_append]
  exact ⟨hc, hp, by rw [hp, dataRows_processFrom],
    by rw [hp, imageNames_processFrom]⟩

theorem claim_C3_witness :
    frameChunk (mkRat 1 30) 0 0 (⟨none, 5⟩ : Frame) = []
    ∧ processFrom (mkRat 1 30) 0 0 [⟨none, 5⟩, ⟨some 1, 6⟩]
        = processFrom (mkRat 1 30) 0 (0 + 1) [⟨some 1, 6⟩]
    ∧ dataRows (processFrom (mkRat 1 30) 0 0 [⟨none, 5⟩, ⟨some 1, 6⟩])
        = writtenRows (mkRat 1 30) 0 (0 + 1) [⟨some 1, 6⟩]
    ∧ imageNames (processFrom (mkRat 1 30) 0 0 [⟨none, 5⟩, ⟨some 1, 6⟩])
        = (writtenRows (mkRat 1 30) 0 (0 + 1) [⟨some 1, 6⟩]).map Prod.fst :=
  claim_C3_null_pts_skipped_consumes_index (mkRat 1 30) 0 0 ⟨none, 5⟩
    [⟨some 1, 6⟩] rfl

/-- **C4**: when opening the container fails, or when it opens with no
video stream, the function prints a message and returns normally; the
trace holds no file write — the only filesystem effect is the possible
creation of the output directory itself. -/
theorem claim_C4_open_failure_is_nonfatal (pf : String → Option ℚ)
    (env : Env) (fs : FileMap) :
    (∀ msg, env.openResult = .error msg →
      extract_frames pf env
          = (mkdirEvents env.outputExists ++ [Event.printOpenError msg], Outcome.ret)
        ∧ applyEvents fs (extract_frames pf env).1 = fs)
    ∧ (∀ c, env.openResult = .ok c → c.videoStreams = [] →
      extract_frames pf env
          = (mkdirEvents env.outputExists ++ [Event.printNoStream], Outcome.ret)
        ∧ applyEvents fs (extract_frames pf env).1 = fs) := by
  constructor
  · intro msg h
    have ht : extract_frames pf env
        = (mkdirEvents env.outputExists ++ [Event.printOpenError msg], Outcome.ret) := by
      simp [extract_frames, h]
    refine ⟨ht, ?_⟩
    rw [ht]
    refine applyEvents_neutral _ ?_ fs
    intro e he
    rcases List.mem_append.mp he with h' | h'
    · rw [mem_mkdirEvents _ _ h']; rfl
    · simp at h'; subst h'; rfl
  · intro c h1 h2
    have ht : extract_frames pf env
        = (mkdirEvents env.outputExists ++ [Event.printNoStream], Outcome.ret) := by
      simp [extract_frames, h1, h2]
    refine ⟨ht, ?_⟩
    rw [ht]
    refine applyEvents_neutral _ ?_ fs
    intro e he
    rcases List.mem_append.mp he with h' | h'
    · rw [mem_mkdirEvents _ _ h']; rfl
    · simp at h'; subst h'; rfl

theorem claim_C4_witness :
    (extract_frames pfNone envOpenErr
        = (mkdirEvents false ++ [Event.printOpenError "boom"], Outcome.ret)
      ∧ applyEvents FileMap.empty (extract_frames pfNone envOpenErr).1 = FileMap.empty)
    ∧ (extract_frames pfNone envNoStream
        = (mkdirEvents true ++ [Event.printNoStream], Outcome.ret)
      ∧ applyEvents FileMap.empty (extract_frames pfNone envNoStream).1 = FileMap.empty) :=
  ⟨(claim_C4_open_failure_is_nonfatal pfNone envOpenErr FileMap.empty).1 "boom" rfl,
   (claim_C4_open_failure_is_nonfatal pfNone envNoStream FileMap.empty).2 ⟨[]⟩ rfl rfl⟩

/-- **C5**: the start offset is the parsed trimmed sidecar content when
it parses; 0 with a parse warning when it does not; 0 with a missing
warning when the file is absent; and the one loaded offset is used for
every row of the run. -/
theorem claim_C5_start_offset_determination (pf : String → Option ℚ) :
    (∀ s v, pf s.trim = some v →
      loadStartOffset pf (some (SidecarRead.content s))
        = .ok ([Event.printFoundOffset v], v))
    ∧ (∀ s, pf s.trim = none →
      loadStartOffset pf (some (SidecarRead.content s))
        = .ok ([Event.printWarnParse], 0))
    ∧ loadStartOffset pf none = .ok ([Event.printWarnMissing], 0)
    ∧ (∀ env c stream rest offEvs off, env.openResult = .ok c →
        c.videoStreams = stream :: rest →
        loadStartOffset pf env.sidecar = .ok (offEvs, off) →
        dataRows (extract_frames pf env).1
          = writtenRows stream.time_base off 0 stream.frames) := by
  refine ⟨?_, ?_, rfl, ?_⟩
  · intro s v hv; simp [loadStartOffset, hv]
  · intro s hv; simp [loadStartOffset, hv]
  · intro env c stream rest offEvs off h1 h2 h3
    exact run_dataRows pf env c stream rest offEvs off h1 h2 h3

set_option maxRecDepth 8000 in
theorem claim_C5_witness :
    loadStartOffset pf1000 (some (SidecarRead.content " 1000.0\n"))
      = .ok ([Event.printFoundOffset 1000], 1000) :=
  (claim_C5_start_offset_determination pf1000).1 " 1000.0\n" 1000 (by with_unfolding_all decide)

/-- **C10**: a sidecar file that exists but raises a non-`ValueError` on
read aborts the run — the exception propagates — and at that point no
CSV and no image file has been created; only the directory creation has
happened. -/
theorem claim_C10_sidecar_io_error_propagates (pf : String → Option ℚ)
    (env : Env) (c : Container) (stream : VideoStream)
    (rest : List VideoStream) (fs : FileMap)
    (h1 : env.openResult = .ok c) (h2 : c.videoStreams = stream :: rest)
    (h3 : env.sidecar = some SidecarRead.ioError) :
    extract_frames pf env = (mkdirEvents env.outputExists, Outcome.raised)
    ∧ applyEvents fs (extract_frames pf env).1 = fs := by
  have ht : extract_frames pf env
      = (mkdirEvents env.outputExists, Outcome.raised) := by
    simp [extract_frames, h1, h2, h3, loadStartOffset]
  refine ⟨ht, ?_⟩
  rw [ht]
  refine applyEvents_neutral _ ?_ fs
  intro e he
  rw [mem_mkdirEvents _ _ he]; rfl

theorem claim_C10_witness :
    extract_frames pfNone envIoErr = (mkdirEvents true, Outcome.raised)
    ∧ applyEvents FileMap.empty (extract_frames pfNone envIoErr).1 = FileMap.empty :=
  claim_C10_sidecar_io_error_propagates pfNone envIoErr ⟨[streamA]⟩ streamA []
    FileMap.empty rfl rfl rfl

/-- **C1**: over a video of `N` decodable frames all carrying a
timestamp, the run writes exactly the image files `frame_000000.jpg` …
`frame_{N-1:06d}.jpg`, in order and with no gaps, and leaves a CSV file
of exactly `N + 1` rows (header plus one row per frame). -/
theorem claim_C1_n_frames_n_files (pf : String → Option ℚ) (env : Env)
    (c : Container) (stream : VideoStream) (rest : List VideoStream)
    (offEvs : List Event) (off : ℚ) (fs : FileMap)
    (h1 : env.openResult = .ok c) (h2 : c.videoStreams = stream :: rest)
    (h3 : loadStartOffset pf env.sidecar = .ok (offEvs, off))
    (hall : ∀ f ∈ stream.frames, f.pts ≠ none) :
    imageNames (extract_frames pf env).1
        = (List.range stream.frames.length).map frameName
    ∧ ∃ lines, (applyEvents fs (extract_frames pf env).1).csv = some lines
        ∧ lines.length = stream.frames.length + 1 := by
  have hnames := run_imageNames pf env c stream rest offEvs off h1 h2 h3
  have hws := writtenRows_all_some stream.time_base off 0 stream.frames hall
  constructor
  · rw [hnames, hws, List.range_eq_range']
  · refine ⟨_, run_csv_content pf env c stream rest offEvs off h1 h2 h3 fs, ?_⟩
    have hlen : (writtenRows stream.time_base off 0 stream.frames).length
        = stream.frames.length := by
      have := congrArg List.length hws
      simpa using this
    simp [hlen]

theorem claim_C1_witness :
    imageNames (extract_frames pfNone envA).1
        = (List.range streamA.frames.length).map frameName
    ∧ ∃ lines, (applyEvents FileMap.empty (extract_frames pfNone envA).1).csv
        = some lines ∧ lines.length = streamA.frames.length + 1 :=
  claim_C1_n_frames_n_files pfNone envA ⟨[streamA]⟩ streamA []
    [Event.printWarnMissing] 0 FileMap.empty rfl rfl rfl (by decide)

/-- **C2**: every CSV row written by a run pairs the frame's filename
with the timestamp `pts * time_base + start_offset`; the file stores it
rendered by `fmt6`, which always yields exactly six digits after the
decimal point. -/
theorem claim_C2_csv_timestamp_formula (pf : String → Option ℚ) (env : Env)
    (c : Container) (stream : VideoStream) (rest : List VideoStream)
    (offEvs : List Event) (off : ℚ) (fs : FileMap)
    (h1 : env.openResult = .ok c) (h2 : c.videoStreams = stream :: rest)
    (h3 : loadStartOffset pf env.sidecar = .ok (offEvs, off)) :
    dataRows (extract_frames pf env).1
        = writtenRows stream.time_base off 0 stream.frames
    ∧ (applyEvents fs (extract_frames pf env).1).csv
        = some (headerRow :: (writtenRows stream.time_base off 0 stream.frames).map
            (fun r => [r.1, fmt6 r.2]))
    ∧ ∀ r ∈ dataRows (extract_frames pf env).1, sixDecimals (fmt6 r.2) = true :=
  ⟨run_dataRows pf env c stream rest offEvs off h1 h2 h3,
   run_csv_content pf env c stream rest offEvs off h1 h2 h3 fs,
   fun r _ => sixDecimals_fmt6 r.2⟩

theorem claim_C2_witness :
    dataRows (extract_frames pfNone envA).1
        = writtenRows streamA.time_base 0 0 streamA.frames
    ∧ (applyEvents FileMap.empty (extract_frames pfNone envA).1).csv
        = some (headerRow :: (writtenRows streamA.time_base 0 0 streamA.frames).map
            (fun r => [r.1, fmt6 r.2]))
    ∧ ∀ r ∈ dataRows (extract_frames pfNone envA).1, sixDecimals (fmt6 r.2) = true :=
  claim_C2_csv_timestamp_formula pfNone envA ⟨[streamA]⟩ streamA []
    [Event.printWarnMissing] 0 FileMap.empty rfl rfl rfl

/-- **C9**: a container that opens with a video stream but yields no
written frame (here: every decoded frame has a null timestamp, which
covers the zero-frame case) still produces the CSV file holding exactly
the header, writes no image, prints the completion notice, and returns
normally. -/
theorem claim_C9_zero_frames_header_only (pf : String → Option ℚ)
    (env : Env) (c : Container) (stream : VideoStream)
    (rest : List VideoStream) (offEvs : List Event) (off : ℚ) (fs : FileMap)
    (h1 : env.openResult = .ok c) (h2 : c.videoStreams = stream :: rest)
    (h3 : loadStartOffset pf env.sidecar = .ok (offEvs, off))
    (hall : ∀ f ∈ stream.frames, f.pts = none) :
    (applyEvents fs (extract_frames pf env).1).csv = some [headerRow]
    ∧ imageNames (extract_frames pf env).1 = []
    ∧ Event.printDone ∈ (extract_frames pf env).1
    ∧ (extract_frames pf env).2 = Outcome.ret := by
  have hw : writtenRows stream.time_base off 0 stream.frames = [] :=
    writtenRows_all_none stream.time_base off 0 stream.frames hall
  refine ⟨?_, ?_, ?_, ?_⟩
  · rw [run_csv_content pf env c stream rest offEvs off h1 h2 h3 fs, hw]
    rfl
  · rw [run_imageNames pf env c stream rest offEvs off h1 h2 h3, hw]
    rfl
  · rw [extract_frames_ok pf env c stream rest offEvs off h1 h2 h3]
    simp
  · rw [extract_frames_ok pf env c stream rest offEvs off h1 h2 h3]

theorem claim_C9_witness :
    (applyEvents FileMap.empty (extract_frames pfNone envAllNone).1).csv
        = some [headerRow]
    ∧ imageNames (extract_frames pfNone envAllNone).1 = []
    ∧ Event.printDone ∈ (extract_frames pfNone envAllNone).1
    ∧ (extract_frames pfNone envAllNone).2 = Outcome.ret :=
  claim_C9_zero_frames_header_only pfNone envAllNone ⟨[⟨mkRat 1 30, [⟨none, 3⟩]⟩]⟩
    ⟨mkRat 1 30, [⟨none, 3⟩]⟩ [] [Event.printWarnMissing] 0 FileMap.empty
    rfl rfl rfl (by decide)

/-- **C6**: at completion the number of CSV data rows equals the number
of image files the run wrote, rows pair with images in decode order,
and along every prefix of the trace the rows never outnumber the images
— each row is appended only after its image was saved, so an
interruption can leave an image without its row but never a row without
its image. -/
theorem claim_C6_rows_lockstep_images (pf : String → Option ℚ) (env : Env)
    (c : Container) (stream : VideoStream) (rest : List VideoStream)
    (offEvs : List Event) (off : ℚ)
    (h1 : env.openResult = .ok c) (h2 : c.videoStreams = stream :: rest)
    (h3 : loadStartOffset pf env.sidecar = .ok (offEvs, off)) :
    rowCount (extract_frames pf env).1 = imgCount (extract_frames pf env).1
    ∧ (dataRows (extract_frames pf env).1).map Prod.fst
        = imageNames (extract_frames pf env).1
    ∧ ∀ n, rowCount ((extract_frames pf env).1.take n)
        ≤ imgCount ((extract_frames pf env).1.take n) := by
  have hrows := run_dataRows pf env c stream rest offEvs off h1 h2 h3
  have hnames := run_imageNames pf env c stream rest offEvs off h1 h2 h3
  refine ⟨?_, ?_, ?_⟩
  · rw [rowCount, hrows, imgCount]
    have : imageNames (extract_frames pf env).1
        = (writtenRows stream.time_base off 0 stream.frames).map Prod.fst := hnames
    rw [imageNames] at this
    calc (writtenRows stream.time_base off 0 stream.frames).length
        = ((writtenRows stream.time_base off 0 stream.frames).map Prod.fst).length := by
          rw [List.length_map]
      _ = ((imageWrites (extract_frames pf env).1).map Prod.fst).length := by rw [this]
      _ = (imageWrites (extract_frames pf env).1).length := by rw [List.length_map]
  · rw [hrows, hnames]
  · intro n
    rw [extract_frames_ok pf env c stream rest offEvs off h1 h2 h3]
    dsimp only
    simp only [List.append_assoc]
    rw [rowCount_take_append, imgCount_take_append]
    refine Nat.add_le_add ?_ ?_
    · rw [rowCount_take_of_none _ (by
        cases hb : env.outputExists <;> simp [mkdirEvents, dataRows])]
      exact Nat.zero_le _
    · rw [rowCount_take_append, imgCount_take_append]
      refine Nat.add_le_add ?_ ?_
      · rw [rowCount_take_of_none _ (by
          rcases loadStartOffset_shape pf env.sidecar offEvs off h3 with h | h | h <;>
            (subst h; simp [dataRows]))]
        exact Nat.zero_le _
      · rw [rowCount_take_append, imgCount_take_append]
        refine Nat.add_le_add ?_ ?_
        · rw [rowCount_take_of_none _ (by simp [dataRows])]
          exact Nat.zero_le _
        · rw [rowCount_take_append, imgCount_take_append]
          refine Nat.add_le_add (processFrom_take_le stream.time_base off 0 stream.frames _) ?_
          rw [rowCount_take_of_none _ (by simp [dataRows])]
          exact Nat.zero_le _

theorem claim_C6_witness :
    rowCount (extract_frames pfNone envA).1 = imgCount (extract_frames pfNone envA).1
    ∧ (dataRows (extract_frames pfNone envA).1).map Prod.fst
        = imageNames (extract_frames pfNone envA).1
    ∧ ∀ n, rowCount ((extract_frames pfNone envA).1.take n)
        ≤ imgCount ((extract_frames pfNone envA).1.take n) :=
  claim_C6_rows_lockstep_images pfNone envA ⟨[streamA]⟩ streamA []
    [Event.printWarnMissing] 0 rfl rfl rfl

/-- **C7**: running the function twice with the same inputs into the
same folder leaves the CSV file exactly as after a single run — the
file is opened with overwrite semantics — while any image file the run
does not write (such as a stale frame from an earlier, longer run) is
left untouched: there is no cleanup of stale files. -/
theorem claim_C7_rerun_overwrites_csv_keeps_stale (pf : String → Option ℚ)
    (env : Env) (fs : FileMap) :
    (applyEvents (applyEvents fs (extract_frames pf env).1)
        (extract_frames pf env).1).csv
      = (applyEvents fs (extract_frames pf env).1).csv
    ∧ ∀ name, name ∉ imageNames (extract_frames pf env).1 →
        (applyEvents (applyEvents fs (extract_frames pf env).1)
            (extract_frames pf env).1).images name
          = (applyEvents fs (extract_frames pf env).1).images name := by
  refine ⟨?_, fun name hn =>
    applyEvents_images_untouched (extract_frames pf env).1 name hn _⟩
  cases hopen : env.openResult with
  | error msg =>
    have ht : extract_frames pf env
        = (mkdirEvents env.outputExists ++ [Event.printOpenError msg], Outcome.ret) := by
      simp [extract_frames, hopen]
    rw [ht]
    refine applyEvents_csv_untouched _ ?_ _
    intro e he
    rcases List.mem_append.mp he with h' | h'
    · rw [mem_mkdirEvents _ _ h']; rfl
    · simp at h'; subst h'; rfl
  | ok c =>
    cases hvs : c.videoStreams with
    | nil =>
      have ht : extract_frames pf env
          = (mkdirEvents env.outputExists ++ [Event.printNoStream], Outcome.ret) := by
        simp [extract_frames, hopen, hvs]
      rw [ht]
      refine applyEvents_csv_untouched _ ?_ _
      intro e he
      rcases List.mem_append.mp he with h' | h'
      · rw [mem_mkdirEvents _ _ h']; rfl
      · simp at h'; subst h'; rfl
    | cons stream rest =>
      cases hoff : loadStartOffset pf env.sidecar with
      | error u =>
        have ht : extract_frames pf env
            = (mkdirEvents env.outputExists, Outcome.raised) := by
          simp [extract_frames, hopen, hvs, hoff]
        rw [ht]
        refine applyEvents_csv_untouched _ ?_ _
        intro e he
        rw [mem_mkdirEvents _ _ he]; rfl
      | ok pr =>
        rw [run_csv_content pf env c stream rest pr.1 pr.2 hopen hvs
            (by rw [hoff]) (applyEvents fs (extract_frames pf env).1),
          run_csv_content pf env c stream rest pr.1 pr.2 hopen hvs
            (by rw [hoff]) fs]

theorem claim_C7_witness :
    (applyEvents (applyEvents fsStale (extract_frames pfNone envA).1)
        (extract_frames pfNone envA).1).csv
      = (applyEvents fsStale (extract_frames pfNone envA).1).csv
    ∧ (applyEvents (applyEvents fsStale (extract_frames pfNone envA).1)
        (extract_frames pfNone envA).1).images "frame_000099.jpg"
      = (applyEvents fsStale (extract_frames pfNone envA).1).images "frame_000099.jpg" :=
  ⟨(claim_C7_rerun_overwrites_csv_keeps_stale pfNone envA fsStale).1,
   (claim_C7_rerun_overwrites_csv_keeps_stale pfNone envA fsStale).2
     "frame_000099.jpg" (by with_unfolding_all decide)⟩

/-- **C8 counterexample**: the claim as stated is false on the code: a
decoded frame may carry a negative presentation timestamp, and nothing
in the function clamps it, so with the sidecar absent (offset 0) a
frame of `pts = -1` at time base 1/30 is written to the CSV with
timestamp −1/30 < 0. -/
theorem claim_C8_counterexample :
    envNegPts.sidecar = none
    ∧ ¬ (∀ r ∈ dataRows (extract_frames pfNone envNegPts).1, 0 ≤ r.2) := by
  with_unfolding_all decide

/-- **C8 (amended)**: provided every decoded frame's `pts` is
non-negative and the time base is non-negative, every timestamp a run
writes is at least the loaded start offset — so at least 0 when the
sidecar is absent (offset 0), and at least 1000 when it loads as
1000.0. -/
theorem claim_C8_timestamps_at_least_offset (pf : String → Option ℚ)
    (env : Env) (c : Container) (stream : VideoStream)
    (rest : List VideoStream) (offEvs : List Event) (off : ℚ)
    (h1 : env.openResult = .ok c) (h2 : c.videoStreams = stream :: rest)
    (h3 : loadStartOffset pf env.sidecar = .ok (offEvs, off))
    (htb : 0 ≤ stream.time_base)
    (hpts : ∀ f ∈ stream.frames, ∀ p, f.pts = some p → 0 ≤ p) :
    (env.sidecar = none → off = 0)
    ∧ ∀ r ∈ dataRows (extract_frames pf env).1, off ≤ r.2 := by
  constructor
  · intro hsc
    rw [hsc] at h3
    simp only [loadStartOffset, Except.ok.injEq, Prod.mk.injEq] at h3
    exact h3.2.symm
  · rw [run_dataRows pf env c stream rest offEvs off h1 h2 h3]
    exact writtenRows_offset_le stream.time_base off htb 0 stream.frames hpts

theorem claim_C8_witness :
    (envA.sidecar = none → (0 : ℚ) = 0)
    ∧ ∀ r ∈ dataRows (extract_frames pfNone envA).1, (0 : ℚ) ≤ r.2 :=
  claim_C8_timestamps_at_least_offset pfNone envA ⟨[streamA]⟩ streamA []
    [Event.printWarnMissing] 0 rfl rfl rfl
    (by with_unfolding_all decide) (by decide)

end SlamRecorder
